import Mathlib

/-!
Verification of `scripts/make_video.py` (frame-sequence-to-video converter).

The script reads `frames.json` (one JSON object per line) from a working
directory, writes a concat manifest (`concatfile`) whose lines are either
`file '<path>'` or `duration <n>`, and then invokes the external encoder
once, asserting that its exit status is zero.

The embedding below mirrors the source line by line:

* a frame-log line is either unparseable (`Line.bad`, i.e. `json.loads`
  raises) or a JSON object, modelled as an association list of string keys
  to JSON values (`JVal`); numeric JSON values are modelled as integers,
  on which the script's subtraction is exact;
* the manifest is modelled as the list of directive lines written to the
  manifest file (`Directive.file p` renders as `file '<p>'` and
  `Directive.duration v` renders as `duration <v>`);
* the loop state (`old_step`, `first`, `last`) and the per-record
  evaluation order of the Python loop body are reproduced exactly:
  when `first` is false the duration line is computed and written first
  (looking up `step`, then subtracting — a non-numeric operand raises
  TypeError), then the file line is computed from `path` and written,
  then `old_step` is reassigned from a second lookup of `step`; a missing
  key raises KeyError at the corresponding point;
* after the loop the script writes `"duration 10\x0a" + last`; when no
  record was processed, `last` is still `None` and the string
  concatenation raises TypeError before anything further is written;
* `mainRun` models the whole of `main` plus the encoder call: an absent
  frame log raises FileNotFoundError before the manifest file is even
  created; a failed manifest build leaves the partially written manifest
  and never reaches the encoder; otherwise the encoder runs once and
  `assert res == 0` fails exactly on a non-zero exit status.
-/

set_option autoImplicit false

namespace MakeVideo

/-- A JSON value as far as the script consumes one: a string or a number
(numbers are modelled as integers; the script subtracts them exactly). -/
inductive JVal where
  | jstr (s : String)
  | jnum (n : Int)
  deriving Repr, DecidableEq

/-- A parsed JSON object: an ordered list of key/value fields. -/
abbrev RawRecord := List (String × JVal)

/-- One line of `frames.json`: either text that `json.loads` rejects, or a
JSON object. -/
inductive Line where
  | bad
  | record (fields : RawRecord)
  deriving Repr, DecidableEq

/-- One line of the concat manifest. `Directive.file p` is the line
`file '<p>'`; `Directive.duration v` is the line `duration <v>`. -/
inductive Directive where
  | file (path : String)
  | duration (value : Int)
  deriving Repr, DecidableEq

/-- The ways a run of the script can abort, mirroring the Python
exception classes that can escape `main`. -/
inductive RunError where
  | fileNotFound
  | parseError
  | keyError (key : String)
  | typeError
  | assertionError
  deriving Repr, DecidableEq

/-- Field access on a JSON object: `json.loads` builds a `dict`, so for a
duplicated key the last occurrence wins. `none` models a KeyError. -/
def lookupField (r : RawRecord) (k : String) : Option JVal :=
  r.foldl (fun acc p => if p.1 = k then some p.2 else acc) none

/-- Python `str()` of a JSON value, as interpolated into an f-string. -/
def jdisp : JVal → String
  | JVal.jstr s => s
  | JVal.jnum n => toString n

/-- Python subtraction `a - b` on JSON values: defined on two numbers,
and a TypeError otherwise. -/
def jsub (a b : JVal) : Except RunError Int :=
  match a, b with
  | JVal.jnum x, JVal.jnum y => Except.ok (x - y)
  | _, _ => Except.error RunError.typeError

/-- The loop state of `main`: `old_step = 0`, `first = True`,
`last = None` initially. -/
structure LoopState where
  old_step : JVal
  first : Bool
  last : Option Directive
  deriving Repr, DecidableEq

/-- The `if not first: of.write(f"duration {...}")` part of the loop body:
looks up `step`, subtracts `old_step`, and yields the duration lines
written (none on the first record). -/
def durationPhase (st : LoopState) (r : RawRecord) : Except RunError (List Directive) :=
  if st.first then Except.ok []
  else
    match lookupField r "step" with
    | none => Except.error (RunError.keyError "step")
    | some sv =>
      match jsub sv st.old_step with
      | Except.error e => Except.error e
      | Except.ok d => Except.ok [Directive.duration d]

/-- One iteration of the loop body of `main`, in Python evaluation order:
duration line (when not first), then the file line from `path`, then the
reassignment `old_step = frame["step"]`. Returns the directives written
before any exception together with either the error or the next state. -/
def procRecord (st : LoopState) (r : RawRecord) : List Directive × Except RunError LoopState :=
  match durationPhase st r with
  | Except.error e => ([], Except.error e)
  | Except.ok durs =>
    match lookupField r "path" with
    | none => (durs, Except.error (RunError.keyError "path"))
    | some pv =>
      let fl := Directive.file (jdisp pv)
      match lookupField r "step" with
      | none => (durs ++ [fl], Except.error (RunError.keyError "step"))
      | some sv => (durs ++ [fl], Except.ok ⟨sv, false, some fl⟩)

/-- The whole `for line in f` loop: processes the lines in order,
accumulating the directives written so far; an unparseable line raises
at `json.loads` before anything of that iteration is written. -/
def procLines : List Line → LoopState → List Directive × Except RunError LoopState
  | [], st => ([], Except.ok st)
  | l :: rest, st =>
    match l with
    | Line.bad => ([], Except.error RunError.parseError)
    | Line.record r =>
      match procRecord st r with
      | (out, Except.error e) => (out, Except.error e)
      | (out, Except.ok st2) =>
        match procLines rest st2 with
        | (tail, res) => (out ++ tail, res)

/-- The manifest-building part of `main`: run the loop from the initial
state, then perform `of.write("duration 10\x0a" + last)` — a TypeError
when `last` is still `None`. Returns the manifest content actually
written to the manifest file, and whether the build succeeded. -/
def buildManifest (lines : List Line) : List Directive × Except RunError Unit :=
  match procLines lines ⟨JVal.jnum 0, true, none⟩ with
  | (out, Except.error e) => (out, Except.error e)
  | (out, Except.ok st) =>
    match st.last with
    | none => (out, Except.error RunError.typeError)
    | some l => (out ++ [Directive.duration 10, l], Except.ok ())

/-- The manifest content written for a given frame log. -/
def manifestOf (lines : List Line) : List Directive :=
  (buildManifest lines).1

deriving instance DecidableEq for Except

/-- Observable outcome of one run of `main`. -/
structure RunResult where
  manifestCreated : Bool
  manifest : List Directive
  encoderInvoked : Bool
  outcome : Except RunError Unit
  deriving Repr, DecidableEq

/-- The whole of `main` followed by the `assert res == 0`:
`frameLog = none` models an absent `frames.json` (FileNotFoundError is
raised by `open` before the manifest file is created); `encoderExit` is
the exit status of the single external encoder invocation. -/
def mainRun (frameLog : Option (List Line)) (encoderExit : Int) : RunResult :=
  match frameLog with
  | none => ⟨false, [], false, Except.error RunError.fileNotFound⟩
  | some lines =>
    match buildManifest lines with
    | (out, Except.error e) => ⟨true, out, false, Except.error e⟩
    | (out, Except.ok _) =>
      ⟨true, out, true,
        if encoderExit = 0 then Except.ok () else Except.error RunError.assertionError⟩

/-- A well-formed frame record: the two fields the script consumes. -/
structure FrameRecord where
  path : String
  step : Int
  deriving Repr, DecidableEq

/-- The JSON object `{"path": ..., "step": ...}` of a frame record. -/
def encodeRecord (f : FrameRecord) : RawRecord :=
  [("path", JVal.jstr f.path), ("step", JVal.jnum f.step)]

/-- The frame-log line holding a well-formed frame record. -/
def encodeFrame (f : FrameRecord) : Line :=
  Line.record (encodeRecord f)

/-- The path of the last frame of the list, or `p` when it is empty. -/
def lastPathFrom (p : String) : List FrameRecord → String
  | [] => p
  | f :: rest => lastPathFrom f.path rest

/-- The step of the last frame of the list, or `prev` when it is empty. -/
def lastStepFrom (prev : Int) : List FrameRecord → Int
  | [] => prev
  | f :: rest => lastStepFrom f.step rest

/-- The manifest segment the spec describes for the non-first frames:
for each frame, a duration directive holding the delta from the previous
step, then the frame's file directive. -/
def specMainTail (prev : Int) : List FrameRecord → List Directive
  | [] => []
  | f :: rest => Directive.duration (f.step - prev) :: Directive.file f.path :: specMainTail f.step rest

/-- The manifest shape the spec describes (properties P1 to P4): the first
frame's file directive, then delta durations interleaved with the
remaining file directives, then the trailing `duration 10` and the
duplicated last file directive. -/
def specManifest : List FrameRecord → List Directive
  | [] => []
  | f0 :: rest =>
    Directive.file f0.path :: specMainTail f0.step rest
      ++ [Directive.duration 10, Directive.file (lastPathFrom f0.path rest)]

/-- Deltas between consecutive steps of a frame list. -/
def stepDeltas : List FrameRecord → List Int
  | [] => []
  | [_] => []
  | a :: b :: rest => (b.step - a.step) :: stepDeltas (b :: rest)

/-- Deltas of a frame list relative to a preceding step value. -/
def deltasFrom (prev : Int) : List FrameRecord → List Int
  | [] => []
  | f :: rest => (f.step - prev) :: deltasFrom f.step rest

/-- Strictly increasing step values. -/
def strictlyIncreasing : List FrameRecord → Bool
  | [] => true
  | [_] => true
  | a :: b :: rest => (a.step < b.step) && strictlyIncreasing (b :: rest)

/-- Whether a directive is a file reference. -/
def isFileDirective : Directive → Bool
  | Directive.file _ => true
  | Directive.duration _ => false

/-- Whether a directive is a duration. -/
def isDurationDirective : Directive → Bool
  | Directive.file _ => false
  | Directive.duration _ => true

/-- The values of the duration directives of a manifest, in order. -/
def durationValues : List Directive → List Int
  | [] => []
  | Directive.duration v :: rest => v :: durationValues rest
  | Directive.file _ :: rest => durationValues rest

/-- The single-quote character, as written around paths in the manifest. -/
def squote : String := String.singleton (Char.ofNat 39)

/-- The manifest line a directive renders to. -/
def renderDirective : Directive → String
  | Directive.file p => "file " ++ squote ++ p ++ squote
  | Directive.duration v => "duration " ++ toString v

/-- The working directory `main` is called on by the `__main__` block of
the script: the block is `main(Path("../output"))`, so the command-line
arguments are never read and the fixed relative path is always used. -/
def entryFolder (_argv : List String) : String := "../output"

/-- A frame-log line that is unparseable or lacks `path` or `step`. -/
def missingFields : Line → Prop
  | Line.bad => True
  | Line.record r => lookupField r "path" = none ∨ lookupField r "step" = none

/-- Errors of the parse/malformed-record class (as opposed to a missing
input file or a failed encoder assertion). -/
def isParseClass : RunError → Bool
  | RunError.parseError => true
  | RunError.keyError _ => true
  | RunError.typeError => true
  | RunError.fileNotFound => false
  | RunError.assertionError => false

/-- Two frame-log lines that are both JSON objects and agree on the
values of their `path` and `step` fields (they may differ in extra
fields and in field order). -/
def agreeOnPathStep : Line → Line → Prop
  | Line.record r1, Line.record r2 =>
    lookupField r1 "path" = lookupField r2 "path" ∧
      lookupField r1 "step" = lookupField r2 "step"
  | _, _ => False

/-- A line the loop can process without raising: a JSON object carrying
both consumed fields. -/
def goodLine : Line → Prop
  | Line.bad => False
  | Line.record r => (lookupField r "path").isSome ∧ (lookupField r "step").isSome

/-- Looking up `path` in an encoded frame record. -/
theorem lookupField_encode_path (f : FrameRecord) :
    lookupField (encodeRecord f) "path" = some (JVal.jstr f.path) := rfl

/-- Looking up `step` in an encoded frame record. -/
theorem lookupField_encode_step (f : FrameRecord) :
    lookupField (encodeRecord f) "step" = some (JVal.jnum f.step) := rfl

/-- Processing an encoded frame record on the first iteration writes just
its file directive and seeds the state. -/
theorem procRecord_encode_first (s : JVal) (d : Option Directive) (f : FrameRecord) :
    procRecord ⟨s, true, d⟩ (encodeRecord f) =
      ([Directive.file f.path],
       Except.ok ⟨JVal.jnum f.step, false, some (Directive.file f.path)⟩) := rfl

/-- Processing an encoded frame record on a later iteration writes the
delta duration and the file directive. -/
theorem procRecord_encode_notfirst (prev : Int) (d : Option Directive) (f : FrameRecord) :
    procRecord ⟨JVal.jnum prev, false, d⟩ (encodeRecord f) =
      ([Directive.duration (f.step - prev), Directive.file f.path],
       Except.ok ⟨JVal.jnum f.step, false, some (Directive.file f.path)⟩) := rfl

/-- Running the loop over encoded frames from a non-first state produces
exactly the interleaved delta/file segment the spec describes. -/
theorem procLines_encode (frames : List FrameRecord) (prev : Int) (p : String) :
    procLines (List.map encodeFrame frames) ⟨JVal.jnum prev, false, some (Directive.file p)⟩ =
      (specMainTail prev frames,
       Except.ok ⟨JVal.jnum (lastStepFrom prev frames), false,
         some (Directive.file (lastPathFrom p frames))⟩) := by
  induction frames generalizing prev p with
  | nil => rfl
  | cons f rest ih =>
    simp [List.map, procLines, encodeFrame, procRecord_encode_notfirst, ih,
      specMainTail, lastStepFrom, lastPathFrom]

/-- The manifest built from a non-empty list of well-formed frame records
is exactly the shape the spec describes, and the build succeeds. -/
theorem buildManifest_encode (f0 : FrameRecord) (rest : List FrameRecord) :
    buildManifest (List.map encodeFrame (f0 :: rest)) =
      (specManifest (f0 :: rest), Except.ok ()) := by
  simp [buildManifest, List.map, procLines, encodeFrame, procRecord_encode_first,
    procLines_encode, specManifest]

/-- The spec's tail segment holds one file directive per frame. -/
theorem countP_isFile_specMainTail (prev : Int) (fs : List FrameRecord) :
    (specMainTail prev fs).countP isFileDirective = fs.length := by
  induction fs generalizing prev with
  | nil => rfl
  | cons f r ih => simp [specMainTail, List.countP_cons, isFileDirective, ih]

/-- The spec's tail segment holds one duration directive per frame. -/
theorem countP_isDuration_specMainTail (prev : Int) (fs : List FrameRecord) :
    (specMainTail prev fs).countP isDurationDirective = fs.length := by
  induction fs generalizing prev with
  | nil => rfl
  | cons f r ih => simp [specMainTail, List.countP_cons, isDurationDirective, ih]

/-- The duration values of the spec's tail segment are the step deltas. -/
theorem durationValues_specMainTail (prev : Int) (fs : List FrameRecord) :
    durationValues (specMainTail prev fs) = deltasFrom prev fs := by
  induction fs generalizing prev with
  | nil => rfl
  | cons f r ih => simp [specMainTail, durationValues, deltasFrom, ih]

/-- Duration values distribute over list append. -/
theorem durationValues_append (l1 l2 : List Directive) :
    durationValues (l1 ++ l2) = durationValues l1 ++ durationValues l2 := by
  induction l1 with
  | nil => rfl
  | cons d t ih => cases d <;> simp [durationValues, ih]

/-- Consecutive deltas of a non-empty list, relative to its head. -/
theorem stepDeltas_cons (a : FrameRecord) (l : List FrameRecord) :
    stepDeltas (a :: l) = deltasFrom a.step l := by
  induction l generalizing a with
  | nil => rfl
  | cons b r ih => simp [stepDeltas, deltasFrom, ih]

/-- The last directive of the main pass is the last frame's file line. -/
theorem getLast_file_specMainTail (p : String) (prev : Int) (fs : List FrameRecord) :
    (Directive.file p :: specMainTail prev fs).getLast? =
      some (Directive.file (lastPathFrom p fs)) := by
  induction fs generalizing p prev with
  | nil => rfl
  | cons f r ih =>
    rw [specMainTail, lastPathFrom, List.getLast?_cons_cons, List.getLast?_cons_cons]
    exact ih f.path f.step

/-- Python subtraction fails only with a TypeError. -/
theorem jsub_error_class (a b : JVal) (e : RunError) (h : jsub a b = Except.error e) :
    e = RunError.typeError := by
  cases a <;> cases b <;> simp [jsub] at h <;> try exact h.symm

/-- The duration phase fails only with a KeyError or a TypeError. -/
theorem durationPhase_error_class (st : LoopState) (r : RawRecord) (e : RunError)
    (h : durationPhase st r = Except.error e) : isParseClass e = true := by
  unfold durationPhase at h
  cases hf : st.first with
  | true => rw [hf] at h; simp at h
  | false =>
    rw [hf] at h
    simp at h
    cases hs : lookupField r "step" with
    | none =>
      rw [hs] at h
      simp at h
      subst h
      rfl
    | some sv =>
      rw [hs] at h
      simp at h
      cases hj : jsub sv st.old_step with
      | error e0 =>
        rw [hj] at h
        simp at h
        subst h
        rw [jsub_error_class sv st.old_step e0 hj]
        rfl
      | ok d => rw [hj] at h; simp at h

/-- A loop iteration fails only with a parse-class error. -/
theorem procRecord_error_class (st : LoopState) (r : RawRecord) (out : List Directive)
    (e : RunError) (h : procRecord st r = (out, Except.error e)) : isParseClass e = true := by
  unfold procRecord at h
  cases hdp : durationPhase st r with
  | error e0 =>
    rw [hdp] at h
    simp at h
    rw [← h.2, ← durationPhase_error_class st r e0 hdp]
  | ok durs =>
    rw [hdp] at h
    cases hp : lookupField r "path" with
    | none => rw [hp] at h; simp at h; rw [← h.2]; rfl
    | some pv =>
      rw [hp] at h
      cases hs : lookupField r "step" with
      | none => rw [hs] at h; simp at h; rw [← h.2]; rfl
      | some sv => rw [hs] at h; simp at h

/-- A successfully processed record wrote at least its file line, and both
consumed fields were present. -/
theorem procRecord_ok_facts (st : LoopState) (r : RawRecord) (out : List Directive)
    (st2 : LoopState) (h : procRecord st r = (out, Except.ok st2)) :
    out ≠ [] ∧ (lookupField r "path").isSome ∧ (lookupField r "step").isSome := by
  unfold procRecord at h
  cases hdp : durationPhase st r with
  | error e => rw [hdp] at h; simp at h
  | ok durs =>
    rw [hdp] at h
    cases hp : lookupField r "path" with
    | none => rw [hp] at h; simp at h
    | some pv =>
      rw [hp] at h
      cases hs : lookupField r "step" with
      | none => rw [hs] at h; simp at h
      | some sv =>
        rw [hs] at h
        simp only [Prod.mk.injEq, Except.ok.injEq] at h
        refine ⟨?_, by simp [hp], by simp [hs]⟩
        rw [← h.1]
        simp

/-- The loop fails only with a parse-class error. -/
theorem procLines_error_class (lines : List Line) (st : LoopState) (out : List Directive)
    (e : RunError) (h : procLines lines st = (out, Except.error e)) : isParseClass e = true := by
  induction lines generalizing st out with
  | nil => simp [procLines] at h
  | cons l rest ih =>
    cases l with
    | bad => simp [procLines] at h; rw [← h.2]; rfl
    | record r =>
      rw [procLines] at h
      cases hpr : procRecord st r with
      | mk out0 res0 =>
        cases res0 with
        | error e0 =>
          rw [hpr] at h
          simp at h
          rw [← h.2]
          exact procRecord_error_class st r out0 e0 hpr
        | ok st2 =>
          rw [hpr] at h
          simp only [] at h
          cases hpl : procLines rest st2 with
          | mk tail res =>
            rw [hpl] at h
            cases res with
            | error e1 =>
              simp at h
              obtain ⟨-, rfl⟩ := h
              exact ih st2 tail hpl
            | ok st3 => simp at h

/-- A loop run that terminates normally processed only good lines. -/
theorem procLines_ok_good (lines : List Line) (st : LoopState) (out : List Directive)
    (st3 : LoopState) (h : procLines lines st = (out, Except.ok st3)) :
    ∀ l, l ∈ lines → goodLine l := by
  induction lines generalizing st out with
  | nil => intro l hl; simp at hl
  | cons l0 rest ih =>
    intro l hl
    cases l0 with
    | bad => simp [procLines] at h
    | record r =>
      rw [procLines] at h
      cases hpr : procRecord st r with
      | mk out0 res0 =>
        cases res0 with
        | error e0 => rw [hpr] at h; simp at h
        | ok st2 =>
          rw [hpr] at h
          simp only [] at h
          cases hpl : procLines rest st2 with
          | mk tail res =>
            rw [hpl] at h
            simp only [] at h
            cases res with
            | error e1 => simp at h
            | ok st4 =>
              simp at h
              rcases List.mem_cons.mp hl with hl0 | hlr
              · subst hl0
                have hf := procRecord_ok_facts st r out0 st2 hpr
                exact ⟨hf.2.1, hf.2.2⟩
              · exact ih st2 tail (by rw [hpl, h.2]) l hlr

/-- A loop run that terminates normally with no output left the state
untouched (it processed no record). -/
theorem procLines_nil_ok (lines : List Line) (st st3 : LoopState)
    (h : procLines lines st = ([], Except.ok st3)) : st3 = st := by
  cases lines with
  | nil =>
    rw [procLines] at h
    simp at h
    exact h.symm
  | cons l rest =>
    cases l with
    | bad => simp [procLines] at h
    | record r =>
      rw [procLines] at h
      cases hpr : procRecord st r with
      | mk out0 res0 =>
        cases res0 with
        | error e0 => rw [hpr] at h; simp at h
        | ok st2 =>
          rw [hpr] at h
          simp only [] at h
          cases hpl : procLines rest st2 with
          | mk tail res =>
            rw [hpl] at h
            simp at h
            exact absurd h.1.1 (procRecord_ok_facts st r out0 st2 hpr).1

/-- On the first iteration, a record writes either nothing (it raised
before its file line) or a file directive first. -/
theorem procRecord_first_head (st : LoopState) (r : RawRecord) (hf : st.first = true) :
    (procRecord st r).1 = [] ∨ ∃ p t, (procRecord st r).1 = Directive.file p :: t := by
  have hdp : durationPhase st r = Except.ok [] := by simp [durationPhase, hf]
  unfold procRecord
  rw [hdp]
  cases hp : lookupField r "path" with
  | none => left; rfl
  | some pv =>
    cases hs : lookupField r "step" with
    | none => right; exact ⟨jdisp pv, [], by simp⟩
    | some sv => right; exact ⟨jdisp pv, [], by simp⟩

/-- Started from a first-iteration state, the loop output is empty or
begins with a file directive. -/
theorem procLines_first_head (lines : List Line) (st : LoopState) (hf : st.first = true) :
    (procLines lines st).1 = [] ∨ ∃ p t, (procLines lines st).1 = Directive.file p :: t := by
  cases lines with
  | nil => left; rfl
  | cons l rest =>
    cases l with
    | bad => left; rfl
    | record r =>
      rw [procLines]
      cases hpr : procRecord st r with
      | mk out0 res0 =>
        have hh := procRecord_first_head st r hf
        rw [hpr] at hh
        simp only [] at hh
        cases res0 with
        | error e0 => simp only []; exact hh
        | ok st2 =>
          simp only []
          cases hpl : procLines rest st2 with
          | mk tail res =>
            simp only []
            rcases hh with h0 | ⟨p, t, hpt⟩
            · exact absurd h0 (procRecord_ok_facts st r out0 st2 hpr).1
            · right
              exact ⟨p, t ++ tail, by simp [hpt]⟩

/-- The first line of the manifest, when there is one, is always a file
directive: the first record never writes a duration line. -/
theorem manifest_head_file (lines : List Line) (d : Directive)
    (h : (manifestOf lines).head? = some d) : ∃ p, d = Directive.file p := by
  unfold manifestOf buildManifest at h
  cases hpl : procLines lines ⟨JVal.jnum 0, true, none⟩ with
  | mk out res =>
    have hh := procLines_first_head lines ⟨JVal.jnum 0, true, none⟩ rfl
    rw [hpl] at hh
    simp only [] at hh
    rw [hpl] at h
    cases res with
    | error e =>
      rcases hh with h0 | ⟨p, t, hpt⟩
      · rw [h0] at h; simp at h
      · rw [hpt] at h
        simp at h
        exact ⟨p, h.symm⟩
    | ok st =>
      rcases hh with h0 | ⟨p, t, hpt⟩
      · have hst : st = ⟨JVal.jnum 0, true, none⟩ :=
          procLines_nil_ok lines ⟨JVal.jnum 0, true, none⟩ st (by rw [hpl, h0])
        rw [hst] at h
        rw [h0] at h
        simp at h
      · rw [hpt] at h
        simp only [] at h
        cases hl : st.last with
        | none => rw [hl] at h; simp at h; exact ⟨p, h.symm⟩
        | some ld => rw [hl] at h; simp at h; exact ⟨p, h.symm⟩

/-- A failed manifest build fails with a parse-class error. -/
theorem buildManifest_error_class (lines : List Line) (e : RunError)
    (h : (buildManifest lines).2 = Except.error e) : isParseClass e = true := by
  unfold buildManifest at h
  cases hpl : procLines lines ⟨JVal.jnum 0, true, none⟩ with
  | mk out res =>
    rw [hpl] at h
    cases res with
    | error e0 =>
      simp at h
      subst h
      exact procLines_error_class lines ⟨JVal.jnum 0, true, none⟩ out e0 hpl
    | ok st =>
      simp only [] at h
      cases hl : st.last with
      | none =>
        rw [hl] at h
        simp at h
        subst h
        rfl
      | some l0 => rw [hl] at h; simp at h

/-- A successful manifest build processed only good lines. -/
theorem buildManifest_ok_good (lines : List Line)
    (h : (buildManifest lines).2 = Except.ok ()) : ∀ l, l ∈ lines → goodLine l := by
  unfold buildManifest at h
  cases hpl : procLines lines ⟨JVal.jnum 0, true, none⟩ with
  | mk out res =>
    rw [hpl] at h
    cases res with
    | error e0 => simp at h
    | ok st => exact procLines_ok_good lines ⟨JVal.jnum 0, true, none⟩ out st hpl

/-- A failed manifest build leaves the partial manifest and never reaches
the encoder. -/
theorem mainRun_build_error (lines : List Line) (encoderExit : Int) (out : List Directive)
    (e : RunError) (hb : buildManifest lines = (out, Except.error e)) :
    mainRun (some lines) encoderExit = ⟨true, out, false, Except.error e⟩ := by
  simp only [mainRun]
  rw [hb]

/-- A successful manifest build reaches the encoder exactly once and the
final assertion checks its exit status. -/
theorem mainRun_build_ok (lines : List Line) (encoderExit : Int) (out : List Directive)
    (hb : buildManifest lines = (out, Except.ok ())) :
    mainRun (some lines) encoderExit =
      ⟨true, out, true,
        if encoderExit = 0 then Except.ok () else Except.error RunError.assertionError⟩ := by
  simp only [mainRun]
  rw [hb]

/-- Two records agreeing on `path` and `step` are processed alike. -/
theorem procRecord_agree (st : LoopState) (r1 r2 : RawRecord)
    (hp : lookupField r1 "path" = lookupField r2 "path")
    (hs : lookupField r1 "step" = lookupField r2 "step") :
    procRecord st r1 = procRecord st r2 := by
  unfold procRecord durationPhase
  rw [hp, hs]

/-- Line-by-line agreement on `path` and `step` makes the whole loop
agree, from any state. -/
theorem procLines_agree (lines1 lines2 : List Line)
    (h : List.Forall₂ agreeOnPathStep lines1 lines2) (st : LoopState) :
    procLines lines1 st = procLines lines2 st := by
  induction h generalizing st with
  | nil => rfl
  | @cons a b l1 l2 hab hrest ih =>
    cases a with
    | bad => cases b <;> exact absurd hab (by simp [agreeOnPathStep])
    | record r1 =>
      cases b with
      | bad => exact absurd hab (by simp [agreeOnPathStep])
      | record r2 =>
        rw [procLines, procLines, procRecord_agree st r1 r2 hab.1 hab.2]
        cases procRecord st r2 with
        | mk out0 res0 =>
          cases res0 with
          | error e0 => rfl
          | ok st2 => simp only []; rw [ih st2]

/-- C1: for every frame log of N >= 1 well-formed records with strictly
increasing steps, the build succeeds and the manifest holds exactly N+1
file directives and N duration directives; the duration values are the
exact consecutive step deltas followed by the trailing 10; and the whole
manifest has the spec's interleaved shape (each delta duration sits
between the file directives of the two frames it separates), ending in
the trailing `duration 10` and the duplicated last file directive. -/
theorem spec_C1 (frames : List FrameRecord) (hN : 1 ≤ frames.length)
    (hmono : strictlyIncreasing frames = true) :
    (buildManifest (List.map encodeFrame frames)).2 = Except.ok () ∧
      (buildManifest (List.map encodeFrame frames)).1.countP isFileDirective =
        frames.length + 1 ∧
      (buildManifest (List.map encodeFrame frames)).1.countP isDurationDirective =
        frames.length ∧
      durationValues (buildManifest (List.map encodeFrame frames)).1 =
        stepDeltas frames ++ [10] ∧
      (buildManifest (List.map encodeFrame frames)).1 = specManifest frames := by
  cases frames with
  | nil => simp at hN
  | cons f0 rest =>
    rw [buildManifest_encode f0 rest]
    refine ⟨rfl, ?_, ?_, ?_, rfl⟩
    · simp [specManifest, List.countP_cons, List.countP_append,
        countP_isFile_specMainTail, isFileDirective]
    · simp [specManifest, List.countP_cons, List.countP_append,
        countP_isDuration_specMainTail, isDurationDirective]
    · simp [specManifest, durationValues, durationValues_append,
        durationValues_specMainTail, stepDeltas_cons]

/-- C1 witness at the two-frame log `[("a", 2), ("b", 5)]`. -/
theorem spec_C1_witness :
    1 ≤ ([⟨"a", 2⟩, ⟨"b", 5⟩] : List FrameRecord).length ∧
      strictlyIncreasing [⟨"a", 2⟩, ⟨"b", 5⟩] = true ∧
      ((buildManifest (List.map encodeFrame [⟨"a", 2⟩, ⟨"b", 5⟩])).2 = Except.ok () ∧
        (buildManifest (List.map encodeFrame [⟨"a", 2⟩, ⟨"b", 5⟩])).1.countP isFileDirective =
          ([⟨"a", 2⟩, ⟨"b", 5⟩] : List FrameRecord).length + 1 ∧
        (buildManifest (List.map encodeFrame [⟨"a", 2⟩, ⟨"b", 5⟩])).1.countP isDurationDirective =
          ([⟨"a", 2⟩, ⟨"b", 5⟩] : List FrameRecord).length ∧
        durationValues (buildManifest (List.map encodeFrame [⟨"a", 2⟩, ⟨"b", 5⟩])).1 =
          stepDeltas [⟨"a", 2⟩, ⟨"b", 5⟩] ++ [10] ∧
        (buildManifest (List.map encodeFrame [⟨"a", 2⟩, ⟨"b", 5⟩])).1 =
          specManifest [⟨"a", 2⟩, ⟨"b", 5⟩]) :=
  ⟨by decide, by decide, spec_C1 [⟨"a", 2⟩, ⟨"b", 5⟩] (by decide) (by decide)⟩

/-- C2: for every non-empty well-formed frame log, the manifest is a main
pass followed by exactly `duration 10` and one more directive, that
trailing directive is a file reference, and it is identical to the last
directive of the main pass — which is the last file reference the main
pass emitted. -/
theorem spec_C2 (frames : List FrameRecord) (h : frames ≠ []) :
    ∃ mainPart lastRef,
      (buildManifest (List.map encodeFrame frames)).1 =
        mainPart ++ [Directive.duration 10, lastRef] ∧
      (buildManifest (List.map encodeFrame frames)).2 = Except.ok () ∧
      isFileDirective lastRef = true ∧
      mainPart.getLast? = some lastRef := by
  cases frames with
  | nil => exact absurd rfl h
  | cons f0 rest =>
    rw [buildManifest_encode f0 rest]
    refine ⟨Directive.file f0.path :: specMainTail f0.step rest,
      Directive.file (lastPathFrom f0.path rest), ?_, rfl, rfl,
      getLast_file_specMainTail f0.path f0.step rest⟩
    simp [specManifest]

/-- C2 witness at the one-frame log `[("a", 0)]`. -/
theorem spec_C2_witness :
    ([⟨"a", 0⟩] : List FrameRecord) ≠ [] ∧
      ∃ mainPart lastRef,
        (buildManifest (List.map encodeFrame [⟨"a", 0⟩])).1 =
          mainPart ++ [Directive.duration 10, lastRef] ∧
        (buildManifest (List.map encodeFrame [⟨"a", 0⟩])).2 = Except.ok () ∧
        isFileDirective lastRef = true ∧
        mainPart.getLast? = some lastRef :=
  ⟨by decide, spec_C2 [⟨"a", 0⟩] (by decide)⟩

/-- C3: for every frame log (well-formed or not), the first file
directive of the produced manifest sits at position 0, so no directive —
in particular no duration directive — immediately precedes it. -/
theorem spec_C3 (lines : List Line) (i : Nat) (p : String)
    (hfile : (manifestOf lines).get? i = some (Directive.file p))
    (hfirst : ∀ k, k < i → ∀ q, (manifestOf lines).get? k ≠ some (Directive.file q)) :
    i = 0 ∧ ∀ j v, ¬(j + 1 = i ∧ (manifestOf lines).get? j = some (Directive.duration v)) := by
  have hi0 : i = 0 := by
    by_contra hne
    cases hm : manifestOf lines with
    | nil => rw [hm] at hfile; simp at hfile
    | cons a t =>
      obtain ⟨q, rfl⟩ := manifest_head_file lines a (by rw [hm]; rfl)
      exact hfirst 0 (Nat.pos_of_ne_zero hne) q (by rw [hm]; rfl)
  refine ⟨hi0, ?_⟩
  intro j v hjv
  have h1 := hjv.1
  omega

/-- C3 witness at the one-frame log `[("a", 0)]`. -/
theorem spec_C3_witness :
    (manifestOf [encodeFrame ⟨"a", 0⟩]).get? 0 = some (Directive.file "a") ∧
      (∀ k, k < 0 → ∀ q,
        (manifestOf [encodeFrame ⟨"a", 0⟩]).get? k ≠ some (Directive.file q)) ∧
      (0 = 0 ∧ ∀ j v, ¬(j + 1 = 0 ∧
        (manifestOf [encodeFrame ⟨"a", 0⟩]).get? j = some (Directive.duration v))) :=
  ⟨by decide, fun k hk => absurd hk (Nat.not_lt_zero k),
    spec_C3 [encodeFrame ⟨"a", 0⟩] 0 "a" (by decide)
      (fun k hk => absurd hk (Nat.not_lt_zero k))⟩

/-- C4: on the example log `f0.png@0, f1.png@5, f2.png@12` the build
succeeds and the manifest is exactly the seven directives
`file f0.png / duration 5 / file f1.png / duration 7 / file f2.png /
duration 10 / file f2.png`, rendering to exactly the seven manifest
lines of the spec's example. -/
theorem spec_C4 :
    buildManifest (List.map encodeFrame [⟨"f0.png", 0⟩, ⟨"f1.png", 5⟩, ⟨"f2.png", 12⟩]) =
      ([Directive.file "f0.png", Directive.duration 5, Directive.file "f1.png",
        Directive.duration 7, Directive.file "f2.png", Directive.duration 10,
        Directive.file "f2.png"], Except.ok ()) ∧
    List.map renderDirective
        (manifestOf (List.map encodeFrame [⟨"f0.png", 0⟩, ⟨"f1.png", 5⟩, ⟨"f2.png", 12⟩])) =
      ["file " ++ squote ++ "f0.png" ++ squote, "duration 5",
       "file " ++ squote ++ "f1.png" ++ squote, "duration 7",
       "file " ++ squote ++ "f2.png" ++ squote, "duration 10",
       "file " ++ squote ++ "f2.png" ++ squote] := by
  exact ⟨by decide, by decide⟩

/-- C5 counterexample: on the empty frame log the produced manifest holds
no directive at all — in particular no final `duration 10` line and no
file reference — and the build aborts with the TypeError raised by
`"duration 10" + None`. -/
theorem spec_C5_counterexample :
    (buildManifest ([] : List Line)).1 = [] ∧
      (buildManifest ([] : List Line)).2 = Except.error RunError.typeError := by
  exact ⟨rfl, rfl⟩

/-- C5 (amended): on the empty frame log the manifest file is created but
left empty, the run aborts with a TypeError from appending the never-set
last entry, and the encoder is never invoked. -/
theorem spec_C5_amended (encoderExit : Int) :
    mainRun (some []) encoderExit =
      ⟨true, [], false, Except.error RunError.typeError⟩ := rfl

/-- C6 counterexample: invoked with an explicit argument, the script still
runs on the fixed relative path, not on the supplied directory. -/
theorem spec_C6_counterexample :
    entryFolder ["customdir"] = "../output" ∧ "../output" ≠ "customdir" := by
  exact ⟨rfl, by decide⟩

/-- C6 (amended): the `__main__` block takes no command-line argument into
account: whatever the argument vector, `main` runs on the fixed relative
path `../output`. -/
theorem spec_C6_amended (argv : List String) : entryFolder argv = "../output" := rfl

/-- C7: a frame log containing an unparseable line or a record missing
`path` or `step` makes the run fail with a parse-class error, and the
encoder is never invoked. -/
theorem spec_C7 (lines : List Line) (encoderExit : Int) (l : Line)
    (hmem : l ∈ lines) (hbad : missingFields l) :
    (mainRun (some lines) encoderExit).encoderInvoked = false ∧
      ∃ err, (mainRun (some lines) encoderExit).outcome = Except.error err ∧
        isParseClass err = true := by
  cases hb : buildManifest lines with
  | mk out res =>
    cases res with
    | ok u =>
      cases u
      exfalso
      have hg := buildManifest_ok_good lines (by rw [hb]) l hmem
      cases l with
      | bad => exact hg
      | record r =>
        rcases hbad with hb1 | hb1 <;> simp [goodLine, hb1] at hg
    | error e =>
      rw [mainRun_build_error lines encoderExit out e hb]
      exact ⟨rfl, e, rfl, buildManifest_error_class lines e (by rw [hb])⟩

/-- C7 witness at a one-line log whose record lacks `step`. -/
theorem spec_C7_witness :
    Line.record [("path", JVal.jstr "a")] ∈ [Line.record [("path", JVal.jstr "a")]] ∧
      missingFields (Line.record [("path", JVal.jstr "a")]) ∧
      ((mainRun (some [Line.record [("path", JVal.jstr "a")]]) 0).encoderInvoked = false ∧
        ∃ err, (mainRun (some [Line.record [("path", JVal.jstr "a")]]) 0).outcome =
            Except.error err ∧ isParseClass err = true) :=
  ⟨List.Mem.head _, Or.inr rfl,
    spec_C7 [Line.record [("path", JVal.jstr "a")]] 0 _ (List.Mem.head _) (Or.inr rfl)⟩

/-- C8: whenever the encoder is invoked, the run returns normally exactly
when the encoder exits with status 0; a non-zero exit status makes the
run fail with the assertion failure, with no retry. -/
theorem spec_C8 (frameLog : Option (List Line)) (encoderExit : Int)
    (hinv : (mainRun frameLog encoderExit).encoderInvoked = true) :
    (mainRun frameLog encoderExit).outcome =
      if encoderExit = 0 then Except.ok () else Except.error RunError.assertionError := by
  cases frameLog with
  | none => simp [mainRun] at hinv
  | some lines =>
    cases hb : buildManifest lines with
    | mk out res =>
      cases res with
      | error e =>
        rw [mainRun_build_error lines encoderExit out e hb] at hinv
        simp at hinv
      | ok u =>
        cases u
        rw [mainRun_build_ok lines encoderExit out hb]

/-- C8 witness: a well-formed log with encoder exit status 1. -/
theorem spec_C8_witness :
    (mainRun (some [encodeFrame ⟨"a", 0⟩]) 1).encoderInvoked = true ∧
      (mainRun (some [encodeFrame ⟨"a", 0⟩]) 1).outcome =
        if (1 : Int) = 0 then Except.ok () else Except.error RunError.assertionError :=
  ⟨by decide, spec_C8 (some [encodeFrame ⟨"a", 0⟩]) 1 (by decide)⟩

/-- C9: with the frame log absent, the run fails with the
FileNotFound-class error, the manifest file is never created (no manifest
output at all), and the encoder is never invoked. -/
theorem spec_C9 (encoderExit : Int) :
    mainRun none encoderExit =
      ⟨false, [], false, Except.error RunError.fileNotFound⟩ := rfl

/-- C10: the manifest depends only on the records' `path` and `step`
values: two logs agreeing line by line on those lookups (whatever their
extra fields or field order) produce identical manifests — indeed
identical build results. -/
theorem spec_C10 (lines1 lines2 : List Line)
    (h : List.Forall₂ agreeOnPathStep lines1 lines2) :
    manifestOf lines1 = manifestOf lines2 ∧ buildManifest lines1 = buildManifest lines2 := by
  have hb : buildManifest lines1 = buildManifest lines2 := by
    unfold buildManifest
    rw [procLines_agree lines1 lines2 h ⟨JVal.jnum 0, true, none⟩]
  exact ⟨congrArg Prod.fst hb, hb⟩

/-- C10 witness: same `path`/`step`, different field order plus an extra
field. -/
theorem spec_C10_witness :
    List.Forall₂ agreeOnPathStep
        [Line.record [("path", JVal.jstr "a"), ("step", JVal.jnum 1)]]
        [Line.record [("extra", JVal.jnum 7), ("step", JVal.jnum 1), ("path", JVal.jstr "a")]] ∧
      (manifestOf [Line.record [("path", JVal.jstr "a"), ("step", JVal.jnum 1)]] =
          manifestOf
            [Line.record [("extra", JVal.jnum 7), ("step", JVal.jnum 1), ("path", JVal.jstr "a")]] ∧
        buildManifest [Line.record [("path", JVal.jstr "a"), ("step", JVal.jnum 1)]] =
          buildManifest
            [Line.record [("extra", JVal.jnum 7), ("step", JVal.jnum 1), ("path", JVal.jstr "a")]]) :=
  ⟨List.Forall₂.cons ⟨by decide, by decide⟩ List.Forall₂.nil,
    spec_C10 _ _ (List.Forall₂.cons ⟨by decide, by decide⟩ List.Forall₂.nil)⟩

end MakeVideo
